import Mathlib

/-!
# go-parallel-sign: the number pool, the session handler, the client registry, the primes

A shallow embedding of `pkg/pool/pool.go`, of `pkg/primes/primes.go`, of the parts of
`pkg/auth/auth.go` the server calls and of the parts of `cmd/server/main.go` that decide
the admission protocol, followed by the properties proved about them.

Conventions of the embedding

* `int32` values (`num`, `clientID`) are `Int`; `NumberPool.Add` only compares them
  for equality, so their range plays no part there.  Where the code does arithmetic
  on an `int32` (`clientCounter++`) the result is wrapped by `wrapInt32`.
* A Go `map[int32]V` is an association list `GoMap V`: indexing returns the zero
  value on a missing key, a store overwrites the entry of a present key and adds an
  entry for an absent one, `len` is the number of entries.
* The scoreboard counters are Go `int` (64 bit).  A counter only grows on a
  successful `Add`, at which point it is at most `len(numbers) < max`, and `max` is
  itself a Go `int`; the increment therefore never wraps (`NumberPool.count_succ_le_max`)
  and the counters are plain `Int`.
* The mutex of the pool makes `Add`, `Len` and `GetScoreboard` atomic; each is a
  function from the state before to the result and the state after.
-/

namespace GoParallelSign

/-! ## Go maps -/

/-- Lookup of a key in an association list: the first entry with that key. -/
def lookupL {V : Type} (k : Int) : List (Int × V) → Option V
  | [] => none
  | (k', v) :: t => if k' = k then some v else lookupL k t

/-- Store into an association list: overwrite the entry of `k`, or add one. -/
def storeL {V : Type} (k : Int) (v : V) : List (Int × V) → List (Int × V)
  | [] => [(k, v)]
  | (k', v') :: t => if k' = k then (k, v) :: t else (k', v') :: storeL k v t

/-- A Go `map[int32]V`. -/
structure GoMap (V : Type) where
  entries : List (Int × V)
deriving DecidableEq

namespace GoMap

variable {V : Type}

/-- The map made by `make(map[int32]V)`. -/
def empty : GoMap V := ⟨[]⟩

/-- The keys present in the map. -/
def keys (m : GoMap V) : List Int := m.entries.map Prod.fst

/-- The values stored in the map. -/
def values (m : GoMap V) : List V := m.entries.map Prod.snd

/-- Go `len(m)`. -/
def len (m : GoMap V) : Int := m.entries.length

/-- Go `v, ok := m[k]`. -/
def find? (m : GoMap V) (k : Int) : Option V := lookupL k m.entries

/-- Go `m[k]`, with `zero` the zero value of `V`. -/
def index (m : GoMap V) (k : Int) (zero : V) : V := (m.find? k).getD zero

/-- Go `m[k] = v`. -/
def store (m : GoMap V) (k : Int) (v : V) : GoMap V := ⟨storeL k v m.entries⟩

/-- Go `maps.Copy(dst, src)`: every entry of `src` is stored into `dst`. -/
def copyInto (dst src : GoMap V) : GoMap V :=
  src.entries.foldl (fun d e => d.store e.1 e.2) dst

/-- A well-formed map has one entry per key. -/
def WF (m : GoMap V) : Prop := m.keys.Nodup

end GoMap

/-! ## pkg/pool/pool.go -/

/-- The struct `NumberPool` (the mutex has no state of its own). -/
structure NumberPool where
  numbers : GoMap Bool
  clients : GoMap Int
  max : Int
deriving DecidableEq

/-- Go `NewNumberPool(max)`. -/
def NewNumberPool (max : Int) : NumberPool :=
  { numbers := GoMap.empty, clients := GoMap.empty, max := max }

namespace NumberPool

/-- Go `p.Add(num, clientID)`: the returned flag and the pool afterwards. -/
def Add (p : NumberPool) (num clientID : Int) : Bool × NumberPool :=
  if decide (p.numbers.len ≥ p.max) || p.numbers.index num false then
    (false, p)
  else
    (true, { p with
      numbers := p.numbers.store num true
      clients := p.clients.store clientID (p.clients.index clientID 0 + 1) })

/-- Go `p.Len()`. -/
def Len (p : NumberPool) : Int := p.numbers.len

/-- Go `p.GetScoreboard()`: the returned copy and the pool afterwards. -/
def GetScoreboard (p : NumberPool) : GoMap Int × NumberPool :=
  (GoMap.copyInto GoMap.empty p.clients, p)

/-- The value `v` is admitted: `p.numbers[v]` is true. -/
def admitted (p : NumberPool) (v : Int) : Prop := p.numbers.index v false = true

instance (p : NumberPool) (v : Int) : Decidable (p.admitted v) := by
  unfold admitted; infer_instance

/-- The pool after a sequence of `Add(num, clientID)` calls. -/
def after (p : NumberPool) : List (Int × Int) → NumberPool
  | [] => p
  | c :: rest => after (p.Add c.1 c.2).2 rest

/-- The flags returned by a sequence of `Add(num, clientID)` calls, in order. -/
def flags (p : NumberPool) : List (Int × Int) → List Bool
  | [] => []
  | c :: rest => (p.Add c.1 c.2).1 :: flags (p.Add c.1 c.2).2 rest

/-- The number of calls of the sequence made with identity `id` that returned true. -/
def credited (p : NumberPool) (calls : List (Int × Int)) (id : Int) : Nat :=
  ((calls.zip (p.flags calls)).filter (fun cr => decide (cr.1.2 = id) && cr.2)).length

/-- The number of calls `Add(v, _)` of the sequence that returned true. -/
def admissions (p : NumberPool) (calls : List (Int × Int)) (v : Int) : Nat :=
  ((calls.zip (p.flags calls)).filter (fun cr => decide (cr.1.1 = v) && cr.2)).length

/-- The representation invariant of pools built through the API. -/
structure Valid (p : NumberPool) : Prop where
  numbersWF : p.numbers.WF
  clientsWF : p.clients.WF
  allTrue : ∀ e ∈ p.numbers.entries, e.2 = true
  posCounts : ∀ e ∈ p.clients.entries, 0 < e.2
  sumEq : p.clients.values.sum = p.numbers.len

end NumberPool

/-! ## pkg/auth/auth.go -/

/-- An RSA public key, the value behind a `*rsa.PublicKey`. -/
structure PublicKey where
  N : Nat
  E : Int
deriving DecidableEq

/-- The two functions of Go's standard library that `auth.Verify` calls.  They are not
code of this repository and are taken as they come: `sha256Sum256` is `sha256.Sum256`,
`verifyPKCS1v15 pub hashed sig` is true when `rsa.VerifyPKCS1v15(pub, crypto.SHA256,
hashed, sig)` returns a nil error.  A nil key pointer is `none`. -/
structure CryptoLib where
  sha256Sum256 : List Nat → List Nat
  verifyPKCS1v15 : Option PublicKey → List Nat → List Nat → Bool

/-- The four bytes written by `binary.BigEndian.PutUint32(msg, uint32(num))`. -/
def putUint32 (num : Int) : List Nat :=
  let u := (num % 4294967296).toNat
  [u / 16777216 % 256, u / 65536 % 256, u / 256 % 256, u % 256]

/-- Go `auth.Verify(num, signature, pub)`: the number is encoded in four bytes, hashed, and
the signature checked against the hash. -/
def Verify (lib : CryptoLib) (num : Int) (signature : List Nat) (pub : Option PublicKey) : Bool :=
  let msg := putUint32 num
  let hash := lib.sha256Sum256 msg
  lib.verifyPKCS1v15 pub hash signature

/-! ## cmd/server/main.go -/

/-- The value an `int32` holds after an arithmetic result `x` (two's complement). -/
def wrapInt32 (x : Int) : Int := (x + 2147483648) % 4294967296 - 2147483648

/-- The state the sessions of one server process share.  `clientCounter`, `conns` and
`publicKeys` are the package variables, `pool` is the pool `p` made in `main`.  A
connection is named by a number.  Three fields record what the code does to the outside:
`sent` lists the `int32` values handed to `binary.Write` (the identity, the response codes
of the submission loop, the codes of the shutdown), with the connection each went to, in
order; `addCalls` lists the arguments of
the calls of `p.Add`; `notifyCalls` lists the `triggeringConn` of each call of
`notifyClientsAndshutdownServer`; `exited` is set by `os.Exit(0)`. -/
structure Server where
  clientCounter : Int
  conns : List Nat
  publicKeys : GoMap PublicKey
  pool : NumberPool
  sent : List (Nat × Int)
  addCalls : List (Int × Int)
  notifyCalls : List Nat
  exited : Bool
deriving DecidableEq

/-- The server when `main` enters its accept loop: zero-valued package variables, an empty
key map and the pool `NewNumberPool(maxNumbers)`. -/
def Server.start (maxNumbers : Int) : Server :=
  { clientCounter := 0, conns := [], publicKeys := GoMap.empty,
    pool := NewNumberPool maxNumbers, sent := [], addCalls := [], notifyCalls := [],
    exited := false }

/-- Go `registerClient(conn)`: the returned identity and the server afterwards. -/
def registerClient (s : Server) (conn : Nat) : Int × Server :=
  let clientCounter := wrapInt32 (s.clientCounter + 1)
  let clientID := clientCounter
  (clientID, { s with clientCounter := clientCounter, conns := s.conns ++ [conn] })

/-- The server after `n` calls of `registerClient`, the `k`-th for the connection
`conn k` (counted from zero). -/
def registerN (s : Server) (conn : Nat → Nat) : Nat → Server
  | 0 => s
  | n + 1 => (registerClient (registerN s conn n) (conn n)).2

/-- The identity returned by the `n`-th call of `registerClient` (counted from one) on
the server `s`. -/
def nthClientID (s : Server) (conn : Nat → Nat) (n : Nat) : Int :=
  (registerClient (registerN s conn (n - 1)) (conn (n - 1))).1

/-- Entering `notifyClientsAndshutdownServer(p, maxNumbers, startTime, triggeringConn)`. -/
def enterNotify (s : Server) (triggeringConn : Nat) : Server :=
  { s with notifyCalls := s.notifyCalls ++ [triggeringConn] }

/-- Line 147 of `notifyClientsAndshutdownServer`: `-1` is written to the triggering
connection.  No lock is held; a write error is only printed. -/
def notifyWrite (s : Server) (triggeringConn : Nat) : Server :=
  { s with sent := s.sent ++ [(triggeringConn, (-1 : Int))] }

/-- Lines 153-162 of `notifyClientsAndshutdownServer`: with `connsMu` held, `-2` is written
to every tracked connection other than the triggering one.  Write errors are only
printed. -/
def notifyBroadcast (s : Server) (triggeringConn : Nat) : Server :=
  { s with
    sent := s.sent ++
      (s.conns.filter (fun c => decide (c ≠ triggeringConn))).map (fun c => (c, (-2 : Int))) }

/-- Line 165 of `notifyClientsAndshutdownServer`: `os.Exit(0)`. -/
def notifyExit (s : Server) : Server :=
  { s with exited := true }

/-- The body of `notifyClientsAndshutdownServer` run without another session in between:
`-1` to the triggering connection, `-2` to every other tracked connection, then
`os.Exit(0)` (`notifyBody_eq_steps`).  Write errors are only printed. -/
def notifyBody (s : Server) (triggeringConn : Nat) : Server :=
  { s with
    sent := s.sent ++ (triggeringConn, (-1 : Int)) ::
      (s.conns.filter (fun c => decide (c ≠ triggeringConn))).map (fun c => (c, (-2 : Int)))
    exited := true }

/-- Go `notifyClientsAndshutdownServer(p, maxNumbers, startTime, triggeringConn)`: the call
followed by the body. -/
def notifyClientsAndshutdownServer (s : Server) (triggeringConn : Nat) : Server :=
  notifyBody (enterNotify s triggeringConn) triggeringConn

/-- What the two reads at the head of a round return: a number and a signature, or a
number followed by a failed signature read.  A failed read of the number is the end of
the list of frames. -/
inductive Frame where
  | submission (num : Int) (sig : List Nat)
  | truncated (num : Int)
deriving DecidableEq

/-- Where a session stands after one round of the submission loop of `handleClient`. -/
inductive Next where
  | nextRead
  | returned
  | exited
deriving DecidableEq

/-- The write of the response at the end of a round (`binary.Write(conn,
binary.LittleEndian, response)`): the loop goes on when the write succeeds and
`handleClient` returns when it fails. -/
def writeResponse (s : Server) (conn : Nat) (response : Int) (writeOk : Bool) : Server × Next :=
  ({ s with sent := s.sent ++ [(conn, response)] }, if writeOk then Next.nextRead else Next.returned)

/-- One round of the submission loop of `handleClient` for a submission `(num, sig)` that
has been read, run without another session in between.  `writeOk` tells whether the write
of the response succeeds. -/
def handleClientRound (lib : CryptoLib) (s : Server) (maxNumbers : Int) (clientID : Int)
    (conn : Nat) (num : Int) (sig : List Nat) (writeOk : Bool) : Server × Next :=
  let pubKey := s.publicKeys.find? clientID
  if !Verify lib num sig pubKey then
    writeResponse s conn (-3) writeOk
  else
    let r := s.pool.Add num clientID
    let s₁ := { s with pool := r.2, addCalls := s.addCalls ++ [(num, clientID)] }
    if r.1 then
      if s₁.pool.Len < maxNumbers then
        writeResponse s₁ conn 1 writeOk
      else if s₁.pool.Len = maxNumbers then
        (notifyClientsAndshutdownServer s₁ conn, Next.exited)
      else
        writeResponse s₁ conn 0 writeOk
    else
      writeResponse s₁ conn 0 writeOk

/-- The submission loop of `handleClient` (lines 79-118) run without another session in
between, on the frames the client sends, each with the flag telling whether the write of
its response succeeds.  The loop ends when a read fails, when a write fails, or in
`os.Exit(0)`. -/
def handleClientLoop (lib : CryptoLib) (maxNumbers : Int) (clientID : Int) (conn : Nat) :
    Server → List (Frame × Bool) → Server
  | s, [] => s
  | s, (Frame.truncated _, _) :: _ => s
  | s, (Frame.submission num sig, writeOk) :: rest =>
    match handleClientRound lib s maxNumbers clientID conn num sig writeOk with
    | (s₁, Next.nextRead) => handleClientLoop lib maxNumbers clientID conn s₁ rest
    | (s₁, Next.returned) => s₁
    | (s₁, Next.exited) => s₁

/-- The codes handed to `binary.Write` for the connection `conn` between the server
states `before` and `after`. -/
def sentTo (before after : Server) (conn : Nat) : List Int :=
  ((after.sent.drop before.sent.length).filter (fun w => decide (w.1 = conn))).map Prod.snd

/-! ### Sessions running side by side

Each session is a goroutine running `handleClient`.  The pool's mutex makes `p.Add` and
each `p.Len()` one indivisible step, and `connsMu` makes the broadcast of
`notifyClientsAndshutdownServer` one; nothing else orders the steps of different sessions:
in particular the write of `-1` in `notifyClientsAndshutdownServer` holds no lock, so
several sessions can be inside that function at once.  A session is therefore a program
counter over the places of the loop where the shared state is read or written, and a run
of the server is a schedule: the list of the sessions that take the next step. -/

/-- The place of the submission loop a session is at. -/
inductive Pc where
  | read
  | callAdd (num : Int)
  | lenLess
  | lenEqual
  | inNotify
  | broadcast
  | exit
  | write (response : Int)
  | returned
deriving DecidableEq

/-- One session: its identity and connection, the frames its client still sends, whether
writes to its connection succeed, and its place in the loop. -/
structure Session where
  clientID : Int
  conn : Nat
  inbox : List Frame
  writeOk : Bool
  pc : Pc
deriving DecidableEq

/-- The next indivisible step of a session.
* `read`: lines 80-98, the reads and the signature check;
* `callAdd`: line 99, `p.Add(num, clientID)`;
* `lenLess`: line 101, `p.Len() < maxNumbers`;
* `lenEqual`: line 103, `p.Len() == maxNumbers`, and the call on line 104;
* `inNotify`: line 147, the write of `-1` to the session's own connection;
* `broadcast`: lines 153-162, the writes of `-2` with `connsMu` held;
* `exit`: line 165, `os.Exit(0)`;
* `write`: line 113, the write of the response. -/
def handleClientStep (lib : CryptoLib) (maxNumbers : Int) (s : Server) (x : Session) :
    Server × Session :=
  match x.pc with
  | Pc.read =>
    match x.inbox with
    | [] => (s, { x with pc := Pc.returned })
    | Frame.truncated _ :: rest => (s, { x with inbox := rest, pc := Pc.returned })
    | Frame.submission num sig :: rest =>
      if !Verify lib num sig (s.publicKeys.find? x.clientID) then
        (s, { x with inbox := rest, pc := Pc.write (-3) })
      else
        (s, { x with inbox := rest, pc := Pc.callAdd num })
  | Pc.callAdd num =>
    let r := s.pool.Add num x.clientID
    ({ s with pool := r.2, addCalls := s.addCalls ++ [(num, x.clientID)] },
     { x with pc := if r.1 then Pc.lenLess else Pc.write 0 })
  | Pc.lenLess =>
    (s, { x with pc := if s.pool.Len < maxNumbers then Pc.write 1 else Pc.lenEqual })
  | Pc.lenEqual =>
    if s.pool.Len = maxNumbers then
      (enterNotify s x.conn, { x with pc := Pc.inNotify })
    else
      (s, { x with pc := Pc.write 0 })
  | Pc.inNotify => (notifyWrite s x.conn, { x with pc := Pc.broadcast })
  | Pc.broadcast => (notifyBroadcast s x.conn, { x with pc := Pc.exit })
  | Pc.exit => (notifyExit s, { x with pc := Pc.returned })
  | Pc.write response =>
    ({ s with sent := s.sent ++ [(x.conn, response)] },
     { x with pc := if x.writeOk then Pc.read else Pc.returned })
  | Pc.returned => (s, x)

/-- The server and its sessions. -/
structure World where
  server : Server
  sessions : List Session
deriving DecidableEq

/-- Session `i` takes its next step; nothing moves once the process has exited. -/
def World.step (lib : CryptoLib) (maxNumbers : Int) (w : World) (i : Nat) : World :=
  if w.server.exited then w
  else
    match w.sessions[i]? with
    | none => w
    | some x =>
      let r := handleClientStep lib maxNumbers w.server x
      { server := r.1, sessions := w.sessions.set i r.2 }

/-- The world after the sessions named by `schedule` have each taken a step, in order. -/
def World.run (lib : CryptoLib) (maxNumbers : Int) (w : World) (schedule : List Nat) : World :=
  schedule.foldl (World.step lib maxNumbers) w

/-! ### Concrete inputs -/

/-- A stand-in for the library, used only to run the model on concrete inputs: the hash is
the message itself, and a signature verifies under a key when it is that hash followed by
the key's modulus. -/
def standInLib : CryptoLib where
  sha256Sum256 := fun msg => msg
  verifyPKCS1v15 := fun pub hashed sig =>
    match pub with
    | none => false
    | some k => decide (sig = hashed ++ [k.N])

/-- Two sessions on a server started with `maxNumbers = 2`: connection 10 is registered
first and bound to `keyA`, connection 20 second and bound to `keyB`; the first client
sends the number 2 signed `sigA`, the second the number 3 signed `sigB`; both sessions
stand at the head of the submission loop. -/
def raceWorld (keyA keyB : PublicKey) (sigA sigB : List Nat) : World :=
  let a := registerClient (Server.start 2) 10
  let b := registerClient a.2 20
  { server := { b.2 with publicKeys := (b.2.publicKeys.store a.1 keyA).store b.1 keyB }
    sessions :=
      [ { clientID := a.1, conn := 10, inbox := [Frame.submission 2 sigA], writeOk := true,
          pc := Pc.read },
        { clientID := b.1, conn := 20, inbox := [Frame.submission 3 sigB], writeOk := true,
          pc := Pc.read } ] }

/-- A server with one registered client, identity 1 on connection 10 bound to the key of
modulus 7, and a pool of capacity `maxNumbers` holding `admittedBefore`, each credited to
identity 1. -/
def oneClientServer (maxNumbers : Int) (admittedBefore : List Int) : Server :=
  let a := registerClient (Server.start maxNumbers) 10
  { a.2 with
    publicKeys := a.2.publicKeys.store a.1 { N := 7, E := 65537 }
    pool := a.2.pool.after (admittedBefore.map (fun v => (v, a.1))) }

/-! ## pkg/primes/primes.go

`n`, `i` and `max` are `int32`: the product `i*i`, the increment `i++`, the difference
`max-1` and the sum `Int31n(max-1) + 2` are wrapped by `wrapInt32`.  Go's `%` truncates
toward zero, which is `Int.tmod`.  A loop is a function of the number of rounds it may
still make; `none` says that it has not returned within them. -/

/-- The loop of `IsPrime`, entered with the loop variable `i`:
`for ; i <= 46340 && i*i <= n; i++ { if n%i == 0 { return false } }; return true`. -/
def IsPrimeLoop (n : Int) : Nat → Int → Option Bool
  | 0, _ => none
  | fuel + 1, i =>
    if decide (i ≤ 46340) && decide (wrapInt32 (i * i) ≤ n) then
      if Int.tmod n i = 0 then some false
      else IsPrimeLoop n fuel (wrapInt32 (i + 1))
    else some true

/-- Go `IsPrime(n)`.  The loop variable starts at 2 and the loop is left at 46341 at the
latest, so 46340 rounds are all it can make. -/
def IsPrime (n : Int) : Option Bool :=
  if n < 2 then some false else IsPrimeLoop n 46340 2

/-- The generator `*rand.Rand` of Go's `math/rand`, which is not code of this repository:
its state, its method `Int31n` (the value returned and the state afterwards), and what the
library documents of that method: called with `n > 0` it returns a value of `[0, n)`. -/
structure RandLib where
  State : Type
  Int31n : State → Int → Int × State
  Int31n_range : ∀ (rng : State) (n : Int), 0 < n → 0 ≤ (Int31n rng n).1 ∧ (Int31n rng n).1 < n

/-- Go `GenerateRandomPrime(max, rng)`:
`for { n := rng.Int31n(max-1) + 2; if IsPrime(n) { return n } }`. -/
def GenerateRandomPrime (lib : RandLib) (max : Int) : Nat → lib.State → Option Int
  | 0, _ => none
  | fuel + 1, rng =>
    let r := lib.Int31n rng (wrapInt32 (max - 1))
    let n := wrapInt32 (r.1 + 2)
    match IsPrime n with
    | some true => some n
    | some false => GenerateRandomPrime lib max fuel r.2
    | none => none

/-- A generator for concrete runs: the state is the list of raw values still to come, and
`Int31n(n)` reduces the next raw value modulo `n`. -/
def streamRand : RandLib where
  State := List Int
  Int31n := fun rng n => (rng.headD 0 % n, rng.tail)
  Int31n_range := fun _ _ h =>
    ⟨Int.emod_nonneg _ (ne_of_gt h), Int.emod_lt_of_pos _ h⟩

/-! ## The head of `handleClient` and the accept loop of `main` -/

/-- The functions of `encoding/pem` and `crypto/x509` that `auth.ParsePublicKey` calls, not
code of this repository.  `pemDecode` gives the bytes of the first PEM block, or `none`
where `pem.Decode` returns a nil block; `parsePKIXPublicKey` gives `none` where
`x509.ParsePKIXPublicKey` returns an error, `some none` for a key that is not an RSA key,
and `some (some k)` for the RSA key `k`. -/
structure KeyCodecLib where
  pemDecode : List Nat → Option (List Nat)
  parsePKIXPublicKey : List Nat → Option (Option PublicKey)

/-- Go `auth.ParsePublicKey(pubBytes)`; each of its three errors is `none`. -/
def ParsePublicKey (codec : KeyCodecLib) (pubBytes : List Nat) : Option PublicKey :=
  match codec.pemDecode pubBytes with
  | none => none
  | some block =>
    match codec.parsePKIXPublicKey block with
    | none => none
    | some none => none
    | some (some rsaPub) => some rsaPub

/-- Go `handleClient(conn, p, maxNumbers, clientID, startTime)` run without another session
in between.  `firstRead` is what `conn.Read(pubBytes)` returns, `none` for an error;
`idWriteOk` tells whether the write of the identity succeeds; `frames` are the submissions
that follow.  The write of the identity is recorded in `sent` like the response codes. -/
def handleClient (lib : CryptoLib) (codec : KeyCodecLib) (s : Server) (maxNumbers : Int)
    (clientID : Int) (conn : Nat) (firstRead : Option (List Nat)) (idWriteOk : Bool)
    (frames : List (Frame × Bool)) : Server :=
  match firstRead with
  | none => s
  | some pubBytes =>
    match ParsePublicKey codec pubBytes with
    | none => s
    | some pubKey =>
      let s₁ := { s with publicKeys := s.publicKeys.store clientID pubKey }
      let s₂ := { s₁ with sent := s₁.sent ++ [(conn, clientID)] }
      if idWriteOk then handleClientLoop lib maxNumbers clientID conn s₂ frames else s₂

/-- One pass of the accept loop of `main` for the accepted connection `conn`
(`clientID := registerClient(conn); go handleClient(conn, p, *maxNumbers, clientID,
startTime)`), with the session it starts run to its end: the identity and the server
afterwards. -/
def acceptConn (lib : CryptoLib) (codec : KeyCodecLib) (s : Server) (maxNumbers : Int)
    (conn : Nat) (firstRead : Option (List Nat)) (idWriteOk : Bool)
    (frames : List (Frame × Bool)) : Int × Server :=
  let r := registerClient s conn
  (r.1, handleClient lib codec r.2 maxNumbers r.1 conn firstRead idWriteOk frames)

/-- A stand-in for the key codec, used only to run the model on concrete inputs: a PEM
block is what follows five dashes, and a block of one byte is the RSA key of that
modulus. -/
def standInCodec : KeyCodecLib where
  pemDecode := fun bytes =>
    if bytes.take 5 = [45, 45, 45, 45, 45] then some (bytes.drop 5) else none
  parsePKIXPublicKey := fun block =>
    match block with
    | [n] => some (some { N := n, E := 65537 })
    | _ => none

/-! ## Lemmas on Go maps -/

theorem lookupL_storeL_same {V : Type} (k : Int) (v : V) (l : List (Int × V)) :
    lookupL k (storeL k v l) = some v := by
  induction l with
  | nil => simp [storeL, lookupL]
  | cons e t ih =>
    obtain ⟨k', v'⟩ := e
    by_cases h : k' = k
    · simp [storeL, lookupL, h]
    · simp [storeL, lookupL, h, ih]

theorem lookupL_storeL_ne {V : Type} (k k' : Int) (v : V) (l : List (Int × V)) (h : k' ≠ k) :
    lookupL k' (storeL k v l) = lookupL k' l := by
  induction l with
  | nil => simp [storeL, lookupL, Ne.symm h]
  | cons e t ih =>
    obtain ⟨k₀, v₀⟩ := e
    by_cases h₀ : k₀ = k
    · subst h₀
      simp [storeL, lookupL, Ne.symm h]
    · by_cases h₁ : k₀ = k'
      · subst h₁
        simp [storeL, lookupL, h]
      · simp [storeL, lookupL, h₀, h₁, ih]

theorem lookupL_eq_none_iff {V : Type} (k : Int) (l : List (Int × V)) :
    lookupL k l = none ↔ k ∉ l.map Prod.fst := by
  induction l with
  | nil => simp [lookupL]
  | cons e t ih =>
    obtain ⟨k', v'⟩ := e
    by_cases h : k' = k
    · simp [lookupL, h]
    · simp [lookupL, h, ih, Ne.symm h]

theorem storeL_of_not_mem {V : Type} (k : Int) (v : V) (l : List (Int × V))
    (h : k ∉ l.map Prod.fst) : storeL k v l = l ++ [(k, v)] := by
  induction l with
  | nil => simp [storeL]
  | cons e t ih =>
    obtain ⟨k', v'⟩ := e
    simp only [List.map_cons, List.mem_cons, not_or] at h
    simp [storeL, Ne.symm h.1, ih h.2]

theorem keys_storeL_of_mem {V : Type} (k : Int) (v : V) (l : List (Int × V))
    (h : k ∈ l.map Prod.fst) : (storeL k v l).map Prod.fst = l.map Prod.fst := by
  induction l with
  | nil => simp at h
  | cons e t ih =>
    obtain ⟨k', v'⟩ := e
    by_cases h₀ : k' = k
    · simp [storeL, h₀]
    · have ht : k ∈ t.map Prod.fst := by
        simp only [List.map_cons, List.mem_cons] at h
        rcases h with h | h
        · exact absurd h.symm h₀
        · exact h
      simp [storeL, h₀, ih ht]

theorem length_storeL_le {V : Type} (k : Int) (v : V) (l : List (Int × V)) :
    (storeL k v l).length ≤ l.length + 1 := by
  by_cases h : k ∈ l.map Prod.fst
  · have := congrArg List.length (keys_storeL_of_mem k v l h)
    simp only [List.length_map] at this
    omega
  · simp [storeL_of_not_mem k v l h]

theorem storeL_nodup {V : Type} (k : Int) (v : V) (l : List (Int × V))
    (h : (l.map Prod.fst).Nodup) : ((storeL k v l).map Prod.fst).Nodup := by
  by_cases hk : k ∈ l.map Prod.fst
  · rw [keys_storeL_of_mem k v l hk]; exact h
  · rw [storeL_of_not_mem k v l hk]
    simp only [List.map_append, List.map_cons, List.map_nil]
    exact List.Nodup.append h (List.nodup_singleton k) (by simpa using hk)

theorem sum_storeL (k : Int) (v : Int) (l : List (Int × Int)) :
    ((storeL k v l).map Prod.snd).sum = (l.map Prod.snd).sum - (lookupL k l).getD 0 + v := by
  induction l with
  | nil => simp [storeL, lookupL]
  | cons e t ih =>
    obtain ⟨k', v'⟩ := e
    by_cases h : k' = k
    · simp [storeL, lookupL, h]; ring
    · simp [storeL, lookupL, h, ih]; ring

theorem mem_storeL {V : Type} (k : Int) (v : V) (l : List (Int × V)) (e : Int × V)
    (h : e ∈ storeL k v l) : e = (k, v) ∨ e ∈ l := by
  induction l with
  | nil => simpa [storeL] using h
  | cons e₀ t ih =>
    obtain ⟨k', v'⟩ := e₀
    by_cases h₀ : k' = k
    · simp only [storeL, h₀, if_true, List.mem_cons] at h
      rcases h with h | h
      · exact Or.inl h
      · exact Or.inr (List.mem_cons_of_mem _ h)
    · simp only [storeL, h₀, if_false, List.mem_cons] at h
      rcases h with h | h
      · exact Or.inr (by simp [h])
      · rcases ih h with h | h
        · exact Or.inl h
        · exact Or.inr (List.mem_cons_of_mem _ h)

theorem foldl_store_append {V : Type} (l : List (Int × V)) (d : List (Int × V))
    (h : ((d ++ l).map Prod.fst).Nodup) :
    l.foldl (fun (m : GoMap V) e => m.store e.1 e.2) ⟨d⟩ = ⟨d ++ l⟩ := by
  induction l generalizing d with
  | nil => simp
  | cons e t ih =>
    obtain ⟨k, v⟩ := e
    have hk : k ∉ d.map Prod.fst := by
      intro hmem
      rw [List.map_append, List.nodup_append] at h
      exact h.2.2 hmem (by simp)
    have h' : (((d ++ [(k, v)]) ++ t).map Prod.fst).Nodup := by simpa using h
    have hs : (⟨d⟩ : GoMap V).store k v = ⟨d ++ [(k, v)]⟩ := by
      simp [GoMap.store, storeL_of_not_mem k v d hk]
    rw [List.foldl_cons, hs, ih (d ++ [(k, v)]) h']
    simp

theorem GoMap.copyInto_empty {V : Type} (m : GoMap V) (h : m.WF) :
    GoMap.copyInto GoMap.empty m = m := by
  obtain ⟨l⟩ := m
  have := foldl_store_append l [] (by simpa [GoMap.WF, GoMap.keys] using h)
  simpa [GoMap.copyInto, GoMap.empty] using this

theorem GoMap.find?_store_same {V : Type} (m : GoMap V) (k : Int) (v : V) :
    (m.store k v).find? k = some v := lookupL_storeL_same k v m.entries

theorem GoMap.find?_store_ne {V : Type} (m : GoMap V) (k k' : Int) (v : V) (h : k' ≠ k) :
    (m.store k v).find? k' = m.find? k' := lookupL_storeL_ne k k' v m.entries h

theorem GoMap.index_store_same {V : Type} (m : GoMap V) (k : Int) (v z : V) :
    (m.store k v).index k z = v := by
  simp [GoMap.index, GoMap.find?_store_same]

theorem GoMap.index_store_ne {V : Type} (m : GoMap V) (k k' : Int) (v z : V) (h : k' ≠ k) :
    (m.store k v).index k' z = m.index k' z := by
  simp [GoMap.index, GoMap.find?_store_ne m k k' v h]

theorem lookupL_mem {V : Type} (k : Int) (v : V) (l : List (Int × V))
    (h : lookupL k l = some v) : (k, v) ∈ l := by
  induction l with
  | nil => simp [lookupL] at h
  | cons e t ih =>
    obtain ⟨k', v'⟩ := e
    by_cases h₀ : k' = k
    · simp only [lookupL, h₀, if_true, Option.some.injEq] at h
      simp [h₀, h]
    · simp only [lookupL, h₀, if_false] at h
      exact List.mem_cons_of_mem _ (ih h)

/-! ## Lemmas on the pool -/

namespace NumberPool

theorem Add_true_iff (p : NumberPool) (num clientID : Int) :
    (p.Add num clientID).1 = true ↔ p.Len < p.max ∧ ¬ p.admitted num := by
  unfold Add Len admitted
  by_cases h₁ : p.numbers.len ≥ p.max
  · simp [h₁]
  · by_cases h₂ : p.numbers.index num false = true
    · simp [h₁, h₂]
    · have h₃ : ¬ p.max ≤ p.numbers.len := h₁
      simp only [ge_iff_le, not_le] at h₁
      simp [h₁, h₂, h₃]

theorem Add_false_state (p : NumberPool) (num clientID : Int)
    (h : (p.Add num clientID).1 = false) : (p.Add num clientID).2 = p := by
  unfold Add at h ⊢
  split
  · rfl
  · rename_i hc
    simp [hc] at h

theorem Add_true_state (p : NumberPool) (num clientID : Int)
    (h : (p.Add num clientID).1 = true) :
    (p.Add num clientID).2 = { p with
      numbers := p.numbers.store num true
      clients := p.clients.store clientID (p.clients.index clientID 0 + 1) } := by
  unfold Add at h ⊢
  split
  · rename_i hc
    simp [hc] at h
  · rfl

theorem Add_max (p : NumberPool) (num clientID : Int) : (p.Add num clientID).2.max = p.max := by
  unfold Add
  split <;> rfl

theorem Add_admitted (p : NumberPool) (num clientID v : Int) :
    (p.Add num clientID).2.admitted v ↔
      (p.admitted v ∨ ((p.Add num clientID).1 = true ∧ v = num)) := by
  cases hf : (p.Add num clientID).1 with
  | false => simp [Add_false_state p num clientID hf]
  | true =>
    rw [Add_true_state p num clientID hf]
    by_cases hv : v = num
    · subst hv
      simp [admitted, GoMap.index_store_same]
    · simp [admitted, GoMap.index_store_ne _ _ _ _ _ hv, hv]

theorem Add_Len_le (p : NumberPool) (num clientID : Int) :
    (p.Add num clientID).2.Len ≤ p.Len + 1 := by
  cases hf : (p.Add num clientID).1 with
  | false => rw [Add_false_state p num clientID hf]; omega
  | true =>
    rw [Add_true_state p num clientID hf]
    have := length_storeL_le num true p.numbers.entries
    simp only [Len, GoMap.len, GoMap.store]
    omega

theorem after_append (p : NumberPool) (xs ys : List (Int × Int)) :
    p.after (xs ++ ys) = (p.after xs).after ys := by
  induction xs generalizing p with
  | nil => rfl
  | cons c t ih => simp [after, ih]

theorem after_max (p : NumberPool) (calls : List (Int × Int)) : (p.after calls).max = p.max := by
  induction calls generalizing p with
  | nil => rfl
  | cons c t ih => simp [after, ih, Add_max]

theorem after_admitted (p : NumberPool) (calls : List (Int × Int)) (v : Int)
    (h : p.admitted v) : (p.after calls).admitted v := by
  induction calls generalizing p with
  | nil => exact h
  | cons c t ih => exact ih _ ((Add_admitted p c.1 c.2 v).2 (Or.inl h))

theorem Add_of_admitted (p : NumberPool) (v id : Int) (h : p.admitted v) :
    p.Add v id = (false, p) := by
  have hf : (p.Add v id).1 = false := by
    cases hc : (p.Add v id).1 with
    | false => rfl
    | true => exact absurd h ((Add_true_iff p v id).1 hc).2
  exact Prod.ext hf (Add_false_state p v id hf)

theorem Add_of_full (p : NumberPool) (v id : Int) (h : p.Len ≥ p.max) :
    p.Add v id = (false, p) := by
  have hf : (p.Add v id).1 = false := by
    cases hc : (p.Add v id).1 with
    | false => rfl
    | true => have := ((Add_true_iff p v id).1 hc).1; omega
  exact Prod.ext hf (Add_false_state p v id hf)

theorem Len_le_max_Add (p : NumberPool) (num clientID : Int) (h : p.Len ≤ p.max) :
    (p.Add num clientID).2.Len ≤ (p.Add num clientID).2.max := by
  rw [Add_max]
  cases hf : (p.Add num clientID).1 with
  | false => rw [Add_false_state p num clientID hf]; exact h
  | true =>
    have h₁ := ((Add_true_iff p num clientID).1 hf).1
    have h₂ := Add_Len_le p num clientID
    omega

/-- A pool that is within its capacity stays so under any sequence of `Add` calls. -/
theorem Len_le_max (p : NumberPool) (calls : List (Int × Int)) (h : p.Len ≤ p.max) :
    (p.after calls).Len ≤ p.max := by
  induction calls generalizing p with
  | nil => exact h
  | cons c t ih =>
    have := ih (p.Add c.1 c.2).2 (Len_le_max_Add p c.1 c.2 h)
    rwa [Add_max] at this

theorem Valid_New (max : Int) : (NewNumberPool max).Valid := by
  refine ⟨?_, ?_, ?_, ?_, ?_⟩ <;> simp [NewNumberPool, GoMap.empty, GoMap.WF, GoMap.keys,
    GoMap.values, GoMap.len]

theorem index_nonneg_of_pos (m : GoMap Int) (h : ∀ e ∈ m.entries, 0 < e.2) (k : Int) :
    0 ≤ m.index k 0 := by
  unfold GoMap.index GoMap.find?
  cases hl : lookupL k m.entries with
  | none => simp
  | some v =>
    have := h _ (lookupL_mem k v _ hl)
    simp only [Option.getD_some]
    omega

theorem Valid_Add (p : NumberPool) (num clientID : Int) (h : p.Valid) :
    (p.Add num clientID).2.Valid := by
  cases hf : (p.Add num clientID).1 with
  | false => rw [Add_false_state p num clientID hf]; exact h
  | true =>
    rw [Add_true_state p num clientID hf]
    have hna := ((Add_true_iff p num clientID).1 hf).2
    have hnot : num ∉ p.numbers.entries.map Prod.fst := by
      rw [← lookupL_eq_none_iff]
      cases hl : lookupL num p.numbers.entries with
      | none => rfl
      | some b =>
        have hb := h.allTrue _ (lookupL_mem num b _ hl)
        simp only at hb
        exact absurd (by simp [admitted, GoMap.index, GoMap.find?, hl, hb]) hna
    refine ⟨?_, ?_, ?_, ?_, ?_⟩
    · exact storeL_nodup num true _ h.numbersWF
    · exact storeL_nodup clientID _ _ h.clientsWF
    · intro e he
      rcases mem_storeL num true _ e he with he | he
      · simp [he]
      · exact h.allTrue e he
    · intro e he
      rcases mem_storeL clientID _ _ e he with he | he
      · have := index_nonneg_of_pos p.clients h.posCounts clientID
        simp only [he]
        omega
      · exact h.posCounts e he
    · have hs := sum_storeL clientID (p.clients.index clientID 0 + 1) p.clients.entries
      have he := h.sumEq
      simp only [GoMap.values, GoMap.len, GoMap.store, GoMap.index, GoMap.find?] at hs he ⊢
      rw [hs, storeL_of_not_mem num true _ hnot]
      simp only [List.length_append, List.length_singleton, Nat.cast_add, Nat.cast_one]
      omega

theorem Valid_after (p : NumberPool) (calls : List (Int × Int)) (h : p.Valid) :
    (p.after calls).Valid := by
  induction calls generalizing p with
  | nil => exact h
  | cons c t ih => exact ih _ (Valid_Add p c.1 c.2 h)

/-- In a pool built through the API no counter exceeds the number of admitted values. -/
theorem count_le_Len (p : NumberPool) (h : p.Valid) (id : Int) :
    p.clients.index id 0 ≤ p.Len := by
  have hsum := h.sumEq
  have hnn : 0 ≤ p.clients.values.sum :=
    List.sum_nonneg (fun x hx => by
      simp only [GoMap.values, List.mem_map] at hx
      obtain ⟨e, he, rfl⟩ := hx
      exact le_of_lt (h.posCounts e he))
  unfold GoMap.index GoMap.find?
  cases hl : lookupL id p.clients.entries with
  | none => simp only [Option.getD_none, Len]; omega
  | some v =>
    have hm : v ∈ p.clients.values := by
      simp only [GoMap.values, List.mem_map]
      exact ⟨(id, v), lookupL_mem id v _ hl, rfl⟩
    have := List.single_le_sum (fun x hx => by
      simp only [GoMap.values, List.mem_map] at hx
      obtain ⟨e, he, rfl⟩ := hx
      exact le_of_lt (h.posCounts e he)) v hm
    simp only [Option.getD_some, Len]
    omega

/-- The counter written by a successful `Add` on a pool built through the API is at most the
capacity, itself a Go `int`: the increment `p.clients[clientID]++` cannot wrap. -/
theorem count_succ_le_max (max : Int) (calls : List (Int × Int)) (num clientID : Int)
    (h : (((NewNumberPool max).after calls).Add num clientID).1 = true) :
    ((NewNumberPool max).after calls).clients.index clientID 0 + 1 ≤ max := by
  have hv := Valid_after (NewNumberPool max) calls (Valid_New max)
  have h₁ := count_le_Len _ hv clientID
  have h₂ := ((Add_true_iff _ num clientID).1 h).1
  rw [after_max] at h₂
  have h₃ : (NewNumberPool max).max = max := rfl
  omega

theorem after_take_succ (p : NumberPool) (calls : List (Int × Int)) (i : Nat) (c : Int × Int)
    (h : calls[i]? = some c) :
    p.after (calls.take (i + 1)) = ((p.after (calls.take i)).Add c.1 c.2).2 := by
  induction calls generalizing p i with
  | nil => simp at h
  | cons d t ih =>
    cases i with
    | zero =>
      simp only [List.getElem?_cons_zero, Option.some.injEq] at h
      subst h
      simp [after]
    | succ j =>
      simp only [List.getElem?_cons_succ] at h
      simp only [List.take_succ_cons, after]
      exact ih _ j h

theorem flags_getElem? (p : NumberPool) (calls : List (Int × Int)) (i : Nat) (c : Int × Int)
    (h : calls[i]? = some c) :
    (p.flags calls)[i]? = some ((p.after (calls.take i)).Add c.1 c.2).1 := by
  induction calls generalizing p i with
  | nil => simp at h
  | cons d t ih =>
    cases i with
    | zero =>
      simp only [List.getElem?_cons_zero, Option.some.injEq] at h
      subst h
      simp [flags, after]
    | succ j =>
      simp only [List.getElem?_cons_succ] at h
      simp only [flags, List.getElem?_cons_succ, List.take_succ_cons, after]
      exact ih _ j h

theorem admitted_mono (p : NumberPool) (calls : List (Int × Int)) (v : Int) (k j : Nat)
    (hkj : k ≤ j) (h : (p.after (calls.take k)).admitted v) :
    (p.after (calls.take j)).admitted v := by
  have hsplit : calls.take j = calls.take k ++ (calls.take j).drop k := by
    conv_lhs => rw [← List.take_append_drop k (calls.take j)]
    rw [List.take_take, Nat.min_eq_left hkj]
  rw [hsplit, after_append]
  exact after_admitted _ _ v h

theorem admissions_cons (p : NumberPool) (c : Int × Int) (t : List (Int × Int)) (v : Int) :
    p.admissions (c :: t) v =
      (if c.1 = v ∧ (p.Add c.1 c.2).1 = true then 1 else 0)
        + (p.Add c.1 c.2).2.admissions t v := by
  unfold admissions
  simp only [flags, List.zip_cons_cons, List.filter_cons]
  generalize (p.Add c.1 c.2).2.flags t = fl
  cases (p.Add c.1 c.2).1 <;> by_cases hc : c.1 = v <;> simp [hc, Nat.add_comm]

theorem credited_cons (p : NumberPool) (c : Int × Int) (t : List (Int × Int)) (id : Int) :
    p.credited (c :: t) id =
      (if c.2 = id ∧ (p.Add c.1 c.2).1 = true then 1 else 0)
        + (p.Add c.1 c.2).2.credited t id := by
  unfold credited
  simp only [flags, List.zip_cons_cons, List.filter_cons]
  generalize (p.Add c.1 c.2).2.flags t = fl
  cases (p.Add c.1 c.2).1 <;> by_cases hc : c.2 = id <;> simp [hc, Nat.add_comm]

theorem admissions_of_admitted (p : NumberPool) (calls : List (Int × Int)) (v : Int)
    (h : p.admitted v) : p.admissions calls v = 0 := by
  induction calls generalizing p with
  | nil => rfl
  | cons c t ih =>
    rw [admissions_cons, ih _ ((Add_admitted p c.1 c.2 v).2 (Or.inl h))]
    have : ¬ (c.1 = v ∧ (p.Add c.1 c.2).1 = true) := by
      rintro ⟨hc, hf⟩
      exact ((Add_true_iff p c.1 c.2).1 hf).2 (hc ▸ h)
    simp [this]

theorem admissions_le_one (p : NumberPool) (calls : List (Int × Int)) (v : Int) :
    p.admissions calls v ≤ 1 := by
  induction calls generalizing p with
  | nil => simp [admissions, flags]
  | cons c t ih =>
    rw [admissions_cons]
    by_cases h : c.1 = v ∧ (p.Add c.1 c.2).1 = true
    · have hadm : (p.Add c.1 c.2).2.admitted v :=
        (Add_admitted p c.1 c.2 v).2 (Or.inr ⟨h.2, h.1.symm⟩)
      rw [if_pos h, admissions_of_admitted _ t v hadm]
    · rw [if_neg h, Nat.zero_add]
      exact ih _

theorem find?_after (p : NumberPool) (calls : List (Int × Int)) (id : Int) :
    (p.after calls).clients.find? id =
      if p.credited calls id = 0 then p.clients.find? id
      else some (p.clients.index id 0 + (p.credited calls id : Int)) := by
  induction calls generalizing p with
  | nil => simp [after, credited, flags]
  | cons c t ih =>
    rw [credited_cons]
    simp only [after]
    rw [ih]
    generalize (p.Add c.1 c.2).2.credited t id = n
    cases hf : (p.Add c.1 c.2).1 with
    | false =>
      rw [Add_false_state p c.1 c.2 hf]
      simp
    | true =>
      have hq := Add_true_state p c.1 c.2 hf
      by_cases hid : c.2 = id
      · have h1 : (p.Add c.1 c.2).2.clients.find? id = some (p.clients.index id 0 + 1) := by
          rw [hq, ← hid]
          exact GoMap.find?_store_same _ _ _
        have h2 : (p.Add c.1 c.2).2.clients.index id 0 = p.clients.index id 0 + 1 := by
          simp [GoMap.index, h1]
        rw [h1, h2]
        have h3 : ¬ (1 + n = 0) := by omega
        by_cases h0 : n = 0
        · simp [hid, h0]
        · simp only [hid, and_self, if_true, h0, h3, if_false, Option.some.injEq]
          push_cast
          ring
      · have hne : id ≠ c.2 := fun h => hid h.symm
        have h1 : (p.Add c.1 c.2).2.clients.find? id = p.clients.find? id := by
          rw [hq]
          exact GoMap.find?_store_ne _ _ _ _ hne
        have h2 : (p.Add c.1 c.2).2.clients.index id 0 = p.clients.index id 0 := by
          simp [GoMap.index, h1]
        rw [h1, h2]
        simp [hid]

end NumberPool

/-! ## The pool contract -/

/-- C1: `Add(num, clientID)` on any pool state: when `Len() >= max` it returns false and
the pool is unchanged; otherwise when `num` is already admitted it returns false and the
pool is unchanged; otherwise it returns true, the admitted values are the old ones plus
`num`, the scoreboard entry of `clientID` is the old count (zero when absent) plus one,
and every other scoreboard entry, like `max`, is unchanged. -/
theorem C1_Add_contract (p : NumberPool) (num clientID : Int) :
    (p.Len ≥ p.max → p.Add num clientID = (false, p)) ∧
    (p.Len < p.max → p.admitted num → p.Add num clientID = (false, p)) ∧
    (p.Len < p.max → ¬ p.admitted num →
      (p.Add num clientID).1 = true ∧
      (∀ v, (p.Add num clientID).2.admitted v ↔ (v = num ∨ p.admitted v)) ∧
      (p.Add num clientID).2.clients.find? clientID = some (p.clients.index clientID 0 + 1) ∧
      (∀ id, id ≠ clientID →
        (p.Add num clientID).2.clients.find? id = p.clients.find? id) ∧
      (p.Add num clientID).2.max = p.max) := by
  refine ⟨NumberPool.Add_of_full p num clientID, fun _ h => NumberPool.Add_of_admitted p num clientID h,
    fun h₁ h₂ => ?_⟩
  have hf : (p.Add num clientID).1 = true := (NumberPool.Add_true_iff p num clientID).2 ⟨h₁, h₂⟩
  refine ⟨hf, ?_, ?_, ?_, NumberPool.Add_max p num clientID⟩
  · intro v
    rw [NumberPool.Add_admitted]
    simp only [hf, true_and]
    exact or_comm
  · rw [NumberPool.Add_true_state p num clientID hf]
    exact GoMap.find?_store_same _ _ _
  · intro id hid
    rw [NumberPool.Add_true_state p num clientID hf]
    exact GoMap.find?_store_ne _ _ _ _ hid

/-- The calls of the unit test `TestNumberPool_Add` on a pool of capacity two: a fresh
value is admitted and credited, a repeated value and a value offered to the full pool are
turned down. -/
theorem C1_Add_contract_witness :
    ((NewNumberPool 2).Add 2 1).1 = true ∧
    ((NewNumberPool 2).Add 2 1).2.clients.find? 1 = some 1 ∧
    ((NewNumberPool 2).after [(2, 1)]).Add 2 1 = (false, (NewNumberPool 2).after [(2, 1)]) ∧
    ((NewNumberPool 2).after [(2, 1), (3, 2)]).Add 5 1
      = (false, (NewNumberPool 2).after [(2, 1), (3, 2)]) :=
  have h := (C1_Add_contract (NewNumberPool 2) 2 1).2.2 (by decide) (by decide)
  ⟨h.1, h.2.2.1,
   (C1_Add_contract ((NewNumberPool 2).after [(2, 1)]) 2 1).2.1 (by decide) (by decide),
   (C1_Add_contract ((NewNumberPool 2).after [(2, 1), (3, 2)]) 5 1).1 (by decide)⟩

/-- C2: on a pool made by `NewNumberPool(max)` with `max` positive, `Len() <= max`
holds after every call of any sequence of `Add` calls, and an `Add` on a pool of the
sequence that holds `max` values returns false and leaves the pool, hence `Len()`, as it
was. -/
theorem C2_Len_never_exceeds_max (max : Int) (hmax : 0 < max) (calls : List (Int × Int)) :
    (∀ k, ((NewNumberPool max).after (calls.take k)).Len ≤ max) ∧
    (∀ k num clientID, ((NewNumberPool max).after (calls.take k)).Len = max →
      ((NewNumberPool max).after (calls.take k)).Add num clientID
          = (false, (NewNumberPool max).after (calls.take k)) ∧
      (((NewNumberPool max).after (calls.take k)).Add num clientID).2.Len = max) := by
  constructor
  · intro k
    have h0 : (NewNumberPool max).Len ≤ (NewNumberPool max).max := by
      simp only [NewNumberPool, NumberPool.Len, GoMap.len, GoMap.empty, List.length_nil,
        Nat.cast_zero]
      omega
    exact NumberPool.Len_le_max (NewNumberPool max) (calls.take k) h0
  · intro k num clientID hfull
    have hge : ((NewNumberPool max).after (calls.take k)).Len
        ≥ ((NewNumberPool max).after (calls.take k)).max := by
      rw [NumberPool.after_max, hfull]
      exact le_refl _
    have := NumberPool.Add_of_full _ num clientID hge
    exact ⟨this, by rw [this]; exact hfull⟩

/-- The pool of the unit test `TestNumberPool_Add`: capacity two, filled by two clients,
then offered a third value. -/
theorem C2_Len_never_exceeds_max_witness :
    (0 : Int) < 2 ∧
    ((NewNumberPool 2).after ([(2, 1), (3, 2), (2, 1), (5, 1)].take 4)).Len ≤ 2 ∧
    ((NewNumberPool 2).after ([(2, 1), (3, 2), (2, 1), (5, 1)].take 2)).Add 5 1
      = (false, (NewNumberPool 2).after ([(2, 1), (3, 2), (2, 1), (5, 1)].take 2)) :=
  ⟨by decide,
   (C2_Len_never_exceeds_max 2 (by decide) [(2, 1), (3, 2), (2, 1), (5, 1)]).1 4,
   ((C2_Len_never_exceeds_max 2 (by decide) [(2, 1), (3, 2), (2, 1), (5, 1)]).2 2 5 1
      (by decide)).1⟩

/-- C3: on a pool made by `NewNumberPool`, after every call of any sequence of `Add`
calls the counts of the map returned by `GetScoreboard()` add up to `Len()`. -/
theorem C3_scoreboard_sum_eq_Len (max : Int) (calls : List (Int × Int)) (k : Nat) :
    (((NewNumberPool max).after (calls.take k)).GetScoreboard.1.values).sum
      = ((NewNumberPool max).after (calls.take k)).Len := by
  have hv := NumberPool.Valid_after (NewNumberPool max) (calls.take k) (NumberPool.Valid_New max)
  simp only [NumberPool.GetScoreboard, GoMap.copyInto_empty _ hv.clientsWF]
  exact hv.sumEq

/-- C4: in any sequence of `Add` calls on any pool, at most one call `Add(v, _)` returns
true; a call `Add(v, _)` that returns true leaves `v` admitted; once `v` is admitted it is
admitted after every later call, and every later `Add(v, id)` returns false and leaves the
pool, hence `Len()` and the scoreboard, unchanged. -/
theorem C4_admitted_at_most_once (p : NumberPool) (calls : List (Int × Int)) (v : Int) :
    p.admissions calls v ≤ 1 ∧
    (∀ i id, calls[i]? = some (v, id) → (p.flags calls)[i]? = some true →
      (p.after (calls.take (i + 1))).admitted v) ∧
    (∀ k j, k ≤ j → (p.after (calls.take k)).admitted v →
      (p.after (calls.take j)).admitted v ∧
      ∀ id, (p.after (calls.take j)).Add v id = (false, p.after (calls.take j))) := by
  refine ⟨NumberPool.admissions_le_one p calls v, ?_, ?_⟩
  · intro i id hc hfl
    rw [NumberPool.flags_getElem? p calls i (v, id) hc] at hfl
    rw [NumberPool.after_take_succ p calls i (v, id) hc]
    simp only [Option.some.injEq] at hfl
    exact (NumberPool.Add_admitted _ v id v).2 (Or.inr ⟨hfl, rfl⟩)
  · intro k j hkj hk
    have hj := NumberPool.admitted_mono p calls v k j hkj hk
    exact ⟨hj, fun id => NumberPool.Add_of_admitted _ v id hj⟩

/-- C5: on a pool made by `NewNumberPool`, after any sequence of `Add` calls the map
returned by `GetScoreboard()` holds, for each identity, the number of `Add` calls made with
that identity that returned true, and no entry for an identity without one (it is empty on
a fresh pool), with one entry per identity; an `Add` that returns false does not change
it, and `GetScoreboard` leaves the pool as it was. -/
theorem C5_scoreboard_counts_admissions (max : Int) (calls : List (Int × Int)) :
    (∀ id, ((NewNumberPool max).after calls).GetScoreboard.1.find? id =
      if (NewNumberPool max).credited calls id = 0 then none
      else some ((NewNumberPool max).credited calls id : Int)) ∧
    ((NewNumberPool max).after calls).GetScoreboard.1.WF ∧
    (NewNumberPool max).GetScoreboard.1 = GoMap.empty ∧
    (∀ num id, (((NewNumberPool max).after calls).Add num id).1 = false →
      (((NewNumberPool max).after calls).Add num id).2.GetScoreboard.1
        = ((NewNumberPool max).after calls).GetScoreboard.1) ∧
    ((NewNumberPool max).after calls).GetScoreboard.2 = (NewNumberPool max).after calls := by
  have hv := NumberPool.Valid_after (NewNumberPool max) calls (NumberPool.Valid_New max)
  refine ⟨?_, ?_, rfl, ?_, rfl⟩
  · intro id
    simp only [NumberPool.GetScoreboard, GoMap.copyInto_empty _ hv.clientsWF]
    rw [NumberPool.find?_after]
    simp [NewNumberPool, GoMap.empty, GoMap.find?, GoMap.index, lookupL]
  · simp only [NumberPool.GetScoreboard, GoMap.copyInto_empty _ hv.clientsWF]
    exact hv.clientsWF
  · intro num id hf
    rw [NumberPool.Add_false_state _ num id hf]

/-! ## The submission loop -/

theorem sentTo_append (s t : Server) (conn : Nat) (ws : List (Nat × Int))
    (h : t.sent = s.sent ++ ws) :
    sentTo s t conn = (ws.filter (fun w => decide (w.1 = conn))).map Prod.snd := by
  simp [sentTo, h]

theorem sentTo_writeResponse (s₀ s : Server) (conn : Nat) (response : Int) (writeOk : Bool)
    (h : s.sent = s₀.sent) :
    sentTo s₀ (writeResponse s conn response writeOk).1 conn = [response] := by
  rw [sentTo_append s₀ _ conn [(conn, response)] (by simp [writeResponse, h])]
  simp

theorem sentTo_notify (s₀ s : Server) (conn : Nat) (h : s.sent = s₀.sent) :
    sentTo s₀ (notifyClientsAndshutdownServer s conn) conn = [-1] := by
  rw [sentTo_append s₀ _ conn ((conn, (-1 : Int)) ::
    (s.conns.filter (fun c => decide (c ≠ conn))).map (fun c => (c, (-2 : Int))))
    (by simp [notifyClientsAndshutdownServer, notifyBody, enterNotify, h])]
  simp only [List.filter_cons, decide_True, if_true, List.map_cons, List.cons.injEq, true_and,
    List.map_eq_nil_iff, List.filter_eq_nil_iff, List.mem_map, List.mem_filter]
  rintro ⟨c, x⟩ ⟨c', ⟨_, hc'⟩, heq⟩
  simp only [Prod.mk.injEq] at heq
  simp only [decide_eq_true_eq] at hc' ⊢
  exact heq.1 ▸ hc'

/-- The body of `notifyClientsAndshutdownServer` run in one piece is its three steps run one
after the other. -/
theorem notifyBody_eq_steps (s : Server) (triggeringConn : Nat) :
    notifyBody s triggeringConn
      = notifyExit (notifyBroadcast (notifyWrite s triggeringConn) triggeringConn) := by
  simp [notifyBody, notifyExit, notifyBroadcast, notifyWrite]

/-- A session that runs one round with no other session in between does, in at most seven
steps, what `handleClientRound` does. -/
theorem run_alone_eq_handleClientRound (lib : CryptoLib) (maxNumbers : Int) (s : Server)
    (x : Session) (num : Int) (sig : List Nat) (rest : List Frame)
    (hpc : x.pc = Pc.read) (hin : x.inbox = Frame.submission num sig :: rest)
    (hex : s.exited = false) :
    ∃ k, k ≤ 7 ∧
      (World.run lib maxNumbers { server := s, sessions := [x] } (List.replicate k 0)).server
        = (handleClientRound lib s maxNumbers x.clientID x.conn num sig x.writeOk).1 ∧
      (World.run lib maxNumbers { server := s, sessions := [x] } (List.replicate k 0)).sessions
        = [{ x with
              inbox := rest
              pc := if (handleClientRound lib s maxNumbers x.clientID x.conn num sig x.writeOk).2
                  = Next.nextRead then Pc.read else Pc.returned }] := by
  cases hv : Verify lib num sig (s.publicKeys.find? x.clientID) with
  | false =>
    refine ⟨2, by omega, ?_⟩
    cases hw : x.writeOk <;>
    simp [World.run, World.step, handleClientStep, handleClientRound, writeResponse, hpc, hin, hex, hv,
      hw, List.replicate]
  | true =>
    cases hf : (s.pool.Add num x.clientID).1 with
    | false =>
      refine ⟨3, by omega, ?_⟩
      cases hw : x.writeOk <;>
      simp [World.run, World.step, handleClientStep, handleClientRound, writeResponse, hpc, hin, hex,
        hv, hf, hw, List.replicate]
    | true =>
      by_cases hlt : (s.pool.Add num x.clientID).2.Len < maxNumbers
      · refine ⟨4, by omega, ?_⟩
        cases hw : x.writeOk <;>
        simp [World.run, World.step, handleClientStep, handleClientRound, writeResponse, hpc, hin, hex,
          hv, hf, hlt, hw, List.replicate]
      · by_cases heq : (s.pool.Add num x.clientID).2.Len = maxNumbers
        · refine ⟨7, by omega, ?_⟩
          simp [World.run, World.step, handleClientStep, handleClientRound, writeResponse, hpc, hin,
            hex, hv, hf, hlt, heq, List.replicate, notifyClientsAndshutdownServer, enterNotify,
            notifyBody, notifyWrite, notifyBroadcast, notifyExit]
        · refine ⟨5, by omega, ?_⟩
          cases hw : x.writeOk <;>
          simp [World.run, World.step, handleClientStep, handleClientRound, writeResponse, hpc, hin,
            hex, hv, hf, hlt, heq, hw, List.replicate]

/-- C6: a round of the submission loop whose signature check fails hands `-3`, and nothing
else, to `binary.Write` for the session's connection, does not call `p.Add` and leaves
the pool (admitted values and scoreboard) as it was, does not start the shutdown, and,
the response written, goes on to the next read: the loop carries on with the frames that
follow.  (A response whose write fails ends the session, as after any round.) -/
theorem C6_invalid_signature_round (lib : CryptoLib) (s : Server) (maxNumbers clientID : Int)
    (conn : Nat) (num : Int) (sig : List Nat) (writeOk : Bool)
    (hv : Verify lib num sig (s.publicKeys.find? clientID) = false) :
    (handleClientRound lib s maxNumbers clientID conn num sig writeOk).1.sent
        = s.sent ++ [(conn, -3)] ∧
    sentTo s (handleClientRound lib s maxNumbers clientID conn num sig writeOk).1 conn = [-3] ∧
    (handleClientRound lib s maxNumbers clientID conn num sig writeOk).1.addCalls = s.addCalls ∧
    (handleClientRound lib s maxNumbers clientID conn num sig writeOk).1.pool = s.pool ∧
    (handleClientRound lib s maxNumbers clientID conn num sig writeOk).1.notifyCalls
        = s.notifyCalls ∧
    (handleClientRound lib s maxNumbers clientID conn num sig writeOk).1.exited = s.exited ∧
    (handleClientRound lib s maxNumbers clientID conn num sig writeOk).2
        = (if writeOk then Next.nextRead else Next.returned) ∧
    (writeOk = true →
      (handleClientRound lib s maxNumbers clientID conn num sig writeOk).2 = Next.nextRead ∧
      ∀ rest, handleClientLoop lib maxNumbers clientID conn s
          ((Frame.submission num sig, writeOk) :: rest)
        = handleClientLoop lib maxNumbers clientID conn
            { s with sent := s.sent ++ [(conn, -3)] } rest) := by
  have h : handleClientRound lib s maxNumbers clientID conn num sig writeOk
      = writeResponse s conn (-3) writeOk := by
    simp [handleClientRound, hv]
  refine ⟨?_, ?_, ?_, ?_, ?_, ?_, ?_, ?_⟩
  · rw [h]; rfl
  · rw [h]; exact sentTo_writeResponse s s conn (-3) writeOk rfl
  · rw [h]; rfl
  · rw [h]; rfl
  · rw [h]; rfl
  · rw [h]; rfl
  · rw [h]; rfl
  · intro hw
    subst hw
    refine ⟨by rw [h]; rfl, fun rest => ?_⟩
    rw [handleClientLoop, h]
    rfl

/-- The scenario of the specification: the client signs 5 and submits 4 with that
signature. -/
theorem C6_invalid_signature_round_witness :
    (handleClientRound standInLib (oneClientServer 2 []) 2 1 10 4 (putUint32 5 ++ [7]) true).1.sent
        = [(10, -3)] ∧
    (handleClientRound standInLib (oneClientServer 2 []) 2 1 10 4 (putUint32 5 ++ [7]) true).1.pool
        = NewNumberPool 2 ∧
    (handleClientRound standInLib (oneClientServer 2 []) 2 1 10 4 (putUint32 5 ++ [7]) true).2
        = Next.nextRead :=
  have h := C6_invalid_signature_round standInLib (oneClientServer 2 []) 2 1 10 4
    (putUint32 5 ++ [7]) true (by decide)
  ⟨h.1, h.2.2.2.1, (h.2.2.2.2.2.2.2 rfl).1⟩

/-- A round of the submission loop whose signature verifies, run with no other session
between its `p.Add` and its reads of `p.Len()`, hands exactly one code to `binary.Write`
for the submitting connection: `0` when `p.Add` returns false, `1` when it returns true
and `p.Len()` is then below `maxNumbers`, `-1` (and not `1`) when it returns true and
`p.Len()` then equals `maxNumbers`.  With `maxNumbers` the capacity of the pool, as `main`
sets it, these are all the cases.  Sessions that run side by side do not keep to this,
since `p.Len()` is read after `p.Add` has released the pool's mutex. -/
theorem handleClientRound_response_codes (lib : CryptoLib) (s : Server) (maxNumbers clientID : Int)
    (conn : Nat) (num : Int) (sig : List Nat) (writeOk : Bool)
    (hv : Verify lib num sig (s.publicKeys.find? clientID) = true) :
    (handleClientRound lib s maxNumbers clientID conn num sig writeOk).1.pool
        = (s.pool.Add num clientID).2 ∧
    ((s.pool.Add num clientID).1 = false →
      sentTo s (handleClientRound lib s maxNumbers clientID conn num sig writeOk).1 conn = [0]) ∧
    ((s.pool.Add num clientID).1 = true → (s.pool.Add num clientID).2.Len < maxNumbers →
      sentTo s (handleClientRound lib s maxNumbers clientID conn num sig writeOk).1 conn = [1]) ∧
    ((s.pool.Add num clientID).1 = true → (s.pool.Add num clientID).2.Len = maxNumbers →
      sentTo s (handleClientRound lib s maxNumbers clientID conn num sig writeOk).1 conn = [-1] ∧
      (handleClientRound lib s maxNumbers clientID conn num sig writeOk).1.notifyCalls
        = s.notifyCalls ++ [conn]) ∧
    (s.pool.max = maxNumbers → (s.pool.Add num clientID).1 = true →
      (s.pool.Add num clientID).2.Len ≤ maxNumbers) := by
  refine ⟨?_, ?_, ?_, ?_, ?_⟩
  · simp only [handleClientRound, hv]
    cases (s.pool.Add num clientID).1 <;> simp only [Bool.not_true, Bool.false_eq_true, if_false,
      if_true]
    · rfl
    · split
      · rfl
      · split <;> rfl
  · intro hf
    simp only [handleClientRound, hv, hf, Bool.not_true, Bool.false_eq_true, if_false]
    exact sentTo_writeResponse s _ conn 0 writeOk rfl
  · intro ht hlt
    simp only [handleClientRound, hv, ht, hlt, Bool.not_true, Bool.false_eq_true, if_false,
      if_true]
    exact sentTo_writeResponse s _ conn 1 writeOk rfl
  · intro ht heq
    have hnlt : ¬ (s.pool.Add num clientID).2.Len < maxNumbers := by omega
    simp only [handleClientRound, hv, ht, Bool.not_true, Bool.false_eq_true, if_false, if_true]
    rw [if_neg hnlt, if_pos heq]
    exact ⟨sentTo_notify s _ conn rfl, rfl⟩
  · intro hmax ht
    have h₁ := ((NumberPool.Add_true_iff s.pool num clientID).1 ht).1
    have h₂ := NumberPool.Add_Len_le s.pool num clientID
    omega

/-- The three outcomes on a pool of capacity two: a fresh value below capacity, the value
that fills the pool, and a value already admitted. -/
theorem handleClientRound_response_codes_examples :
    sentTo (oneClientServer 2 [])
      (handleClientRound standInLib (oneClientServer 2 []) 2 1 10 3 (putUint32 3 ++ [7]) true).1 10
        = [1] ∧
    sentTo (oneClientServer 2 [2])
      (handleClientRound standInLib (oneClientServer 2 [2]) 2 1 10 3 (putUint32 3 ++ [7]) true).1 10
        = [-1] ∧
    sentTo (oneClientServer 2 [2])
      (handleClientRound standInLib (oneClientServer 2 [2]) 2 1 10 2 (putUint32 2 ++ [7]) true).1 10
        = [0] :=
  ⟨(handleClientRound_response_codes standInLib (oneClientServer 2 []) 2 1 10 3 (putUint32 3 ++ [7]) true
      (by decide)).2.2.1 (by decide) (by decide),
   ((handleClientRound_response_codes standInLib (oneClientServer 2 [2]) 2 1 10 3 (putUint32 3 ++ [7]) true
      (by decide)).2.2.2.1 (by decide) (by decide)).1,
   (handleClientRound_response_codes standInLib (oneClientServer 2 [2]) 2 1 10 2 (putUint32 2 ++ [7]) true
      (by decide)).2.1 (by decide)⟩

/-! ## Sessions racing for the last slot -/

/-- C8 (what the code does): with `maxNumbers = 2` and two sessions whose signatures
verify, let the first session run up to and including its `p.Add(2, 1)`, which returns true
and leaves the pool at one value, then the second up to and including its `p.Add(3, 2)`,
which returns true and brings the pool to two.  When the first session now evaluates
`p.Len() < maxNumbers` and `p.Len() == maxNumbers` it reads two and calls
`notifyClientsAndshutdownServer`; the second session does the same before the process has
exited.  The shutdown is entered twice, first by the session whose `Add` left the pool
below `maxNumbers`. -/
theorem C8_shutdown_entered_twice (lib : CryptoLib) (keyA keyB : PublicKey)
    (sigA sigB : List Nat)
    (hA : Verify lib 2 sigA (some keyA) = true) (hB : Verify lib 3 sigB (some keyB) = true) :
    (World.run lib 2 (raceWorld keyA keyB sigA sigB) [0, 0]).server.addCalls = [(2, 1)] ∧
    (World.run lib 2 (raceWorld keyA keyB sigA sigB) [0, 0]).server.pool.Len = 1 ∧
    (World.run lib 2 (raceWorld keyA keyB sigA sigB) [0, 0, 1, 1]).server.addCalls
      = [(2, 1), (3, 2)] ∧
    (World.run lib 2 (raceWorld keyA keyB sigA sigB) [0, 0, 1, 1]).server.pool.Len = 2 ∧
    (World.run lib 2 (raceWorld keyA keyB sigA sigB) [0, 0, 1, 1, 0, 0]).server.notifyCalls
      = [10] ∧
    (World.run lib 2 (raceWorld keyA keyB sigA sigB) [0, 0, 1, 1, 0, 0, 1, 1]).server.notifyCalls
      = [10, 20] ∧
    (World.run lib 2 (raceWorld keyA keyB sigA sigB) [0, 0, 1, 1, 0, 0, 1, 1]).server.exited
      = false := by
  simp [World.run, World.step, handleClientStep, raceWorld, registerClient, Server.start, wrapInt32,
    NumberPool.Add, NumberPool.Len, NewNumberPool, GoMap.find?, GoMap.store, GoMap.index,
    GoMap.len, GoMap.empty, storeL, lookupL, enterNotify, hA, hB]

/-- The race with the stand-in library: keys of modulus 7 and 11, each number signed
under its session's key. -/
theorem C8_shutdown_entered_twice_witness :
    Verify standInLib 2 (putUint32 2 ++ [7]) (some { N := 7, E := 65537 }) = true ∧
    Verify standInLib 3 (putUint32 3 ++ [11]) (some { N := 11, E := 65537 }) = true ∧
    (World.run standInLib 2
      (raceWorld { N := 7, E := 65537 } { N := 11, E := 65537 }
        (putUint32 2 ++ [7]) (putUint32 3 ++ [11]))
      [0, 0, 1, 1, 0, 0, 1, 1]).server.notifyCalls = [10, 20] :=
  ⟨by decide, by decide,
   (C8_shutdown_entered_twice standInLib { N := 7, E := 65537 } { N := 11, E := 65537 }
      (putUint32 2 ++ [7]) (putUint32 3 ++ [11]) (by decide) (by decide)).2.2.2.2.2.1⟩

/-- C7 (what the code does): with `maxNumbers = 2` and two sessions whose signatures
verify, the `p.Add(2, 1)` of the first session returns true and leaves the pool at one
value, below `maxNumbers`, and a round run on its own answers it with `1`.  Let the second
session's `p.Add(3, 2)` come before the first session reads `p.Len()`: the first session
then reads two, enters `notifyClientsAndshutdownServer` and is sent `-1`, not `1`.  Let the
second session enter it as well and broadcast before the process has exited: the first
connection is handed two codes, `-1` and `-2`, for its one submission. -/
theorem C7_code_not_determined_by_Add (lib : CryptoLib) (keyA keyB : PublicKey)
    (sigA sigB : List Nat)
    (hA : Verify lib 2 sigA (some keyA) = true) (hB : Verify lib 3 sigB (some keyB) = true) :
    ((raceWorld keyA keyB sigA sigB).server.pool.Add 2 1).1 = true ∧
    ((raceWorld keyA keyB sigA sigB).server.pool.Add 2 1).2.Len = 1 ∧
    sentTo (raceWorld keyA keyB sigA sigB).server
      (handleClientRound lib (raceWorld keyA keyB sigA sigB).server 2 1 10 2 sigA true).1 10
      = [1] ∧
    (World.run lib 2 (raceWorld keyA keyB sigA sigB) [0, 0, 1, 1, 0, 0, 0]).server.addCalls
      = [(2, 1), (3, 2)] ∧
    sentTo (raceWorld keyA keyB sigA sigB).server
      (World.run lib 2 (raceWorld keyA keyB sigA sigB) [0, 0, 1, 1, 0, 0, 0]).server 10
      = [-1] ∧
    (World.run lib 2 (raceWorld keyA keyB sigA sigB)
      [0, 0, 1, 1, 0, 0, 1, 1, 0, 1, 1]).server.sent = [(10, -1), (20, -1), (10, -2)] ∧
    sentTo (raceWorld keyA keyB sigA sigB).server
      (World.run lib 2 (raceWorld keyA keyB sigA sigB)
        [0, 0, 1, 1, 0, 0, 1, 1, 0, 1, 1]).server 10 = [-1, -2] := by
  simp [World.run, World.step, handleClientStep, handleClientRound, writeResponse, sentTo,
    raceWorld, registerClient, Server.start, wrapInt32, NumberPool.Add, NumberPool.Len,
    NewNumberPool, GoMap.find?, GoMap.store, GoMap.index, GoMap.len, GoMap.empty, storeL,
    lookupL, enterNotify, notifyWrite, notifyBroadcast, hA, hB]

/-- The same runs with the stand-in library: keys of modulus 7 and 11, each number signed
under its session's key. -/
theorem C7_code_not_determined_by_Add_witness :
    sentTo
      (raceWorld { N := 7, E := 65537 } { N := 11, E := 65537 }
        (putUint32 2 ++ [7]) (putUint32 3 ++ [11])).server
      (World.run standInLib 2
        (raceWorld { N := 7, E := 65537 } { N := 11, E := 65537 }
          (putUint32 2 ++ [7]) (putUint32 3 ++ [11]))
        [0, 0, 1, 1, 0, 0, 0]).server 10 = [-1] ∧
    sentTo
      (raceWorld { N := 7, E := 65537 } { N := 11, E := 65537 }
        (putUint32 2 ++ [7]) (putUint32 3 ++ [11])).server
      (World.run standInLib 2
        (raceWorld { N := 7, E := 65537 } { N := 11, E := 65537 }
          (putUint32 2 ++ [7]) (putUint32 3 ++ [11]))
        [0, 0, 1, 1, 0, 0, 1, 1, 0, 1, 1]).server 10 = [-1, -2] :=
  have h := C7_code_not_determined_by_Add standInLib { N := 7, E := 65537 }
    { N := 11, E := 65537 } (putUint32 2 ++ [7]) (putUint32 3 ++ [11]) (by decide) (by decide)
  ⟨h.2.2.2.2.1, h.2.2.2.2.2.2⟩

/-! ## Registration -/

theorem wrapInt32_of_mem (x : Int) (h₁ : -2147483648 ≤ x) (h₂ : x ≤ 2147483647) :
    wrapInt32 x = x := by
  unfold wrapInt32
  omega

theorem wrapInt32_succ (x : Int) : wrapInt32 (wrapInt32 x + 1) = wrapInt32 (x + 1) := by
  unfold wrapInt32
  omega

theorem registerN_clientCounter (maxNumbers : Int) (conn : Nat → Nat) (n : Nat) :
    (registerN (Server.start maxNumbers) conn n).clientCounter = wrapInt32 n := by
  induction n with
  | zero => simp [registerN, Server.start, wrapInt32]
  | succ k ih =>
    simp only [registerN, registerClient, ih, wrapInt32_succ]
    push_cast
    rfl

theorem registerN_conns (s : Server) (conn : Nat → Nat) (n : Nat) :
    (registerN s conn n).conns = s.conns ++ (List.range n).map conn := by
  induction n with
  | zero => simp [registerN]
  | succ k ih => simp [registerN, registerClient, ih, List.range_succ]

theorem nthClientID_eq (maxNumbers : Int) (conn : Nat → Nat) (n : Nat) (h : 1 ≤ n) :
    nthClientID (Server.start maxNumbers) conn n = wrapInt32 n := by
  obtain ⟨k, rfl⟩ : ∃ k, n = k + 1 := ⟨n - 1, by omega⟩
  simp only [nthClientID, Nat.add_sub_cancel, registerClient, registerN_clientCounter,
    wrapInt32_succ]
  push_cast
  rfl

/-- C9 (as the code has it): from the server's initial state, for every `n` from 1 to
2147483647 the `n`-th call of `registerClient` returns the identity `n` and appends its
connection to `conns`; so these identities are positive `int32` values and strictly
increasing in registration order, without gap or repetition. -/
theorem C9_identities_sequential (maxNumbers : Int) (conn : Nat → Nat) (n : Nat)
    (h₁ : 1 ≤ n) (h₂ : n ≤ 2147483647) :
    nthClientID (Server.start maxNumbers) conn n = n ∧
    (registerN (Server.start maxNumbers) conn n).conns
      = (registerN (Server.start maxNumbers) conn (n - 1)).conns ++ [conn (n - 1)] ∧
    (registerN (Server.start maxNumbers) conn n).conns = (List.range n).map conn ∧
    (0 < nthClientID (Server.start maxNumbers) conn n ∧
      nthClientID (Server.start maxNumbers) conn n ≤ 2147483647) ∧
    (∀ m, 1 ≤ m → m < n →
      nthClientID (Server.start maxNumbers) conn m
        < nthClientID (Server.start maxNumbers) conn n) := by
  have hn : nthClientID (Server.start maxNumbers) conn n = n := by
    rw [nthClientID_eq maxNumbers conn n h₁]
    exact wrapInt32_of_mem n (by omega) (by omega)
  refine ⟨hn, ?_, ?_, ?_, ?_⟩
  · obtain ⟨k, rfl⟩ : ∃ k, n = k + 1 := ⟨n - 1, by omega⟩
    simp [registerN, registerClient]
  · simp [registerN_conns, Server.start]
  · rw [hn]
    omega
  · intro m hm₁ hm₂
    rw [hn, nthClientID_eq maxNumbers conn m hm₁, wrapInt32_of_mem m (by omega) (by omega)]
    exact_mod_cast hm₂

/-- The first three registrations of a server started with the default `max` of 800. -/
theorem C9_identities_sequential_witness :
    nthClientID (Server.start 800) (fun k => 10 * (k + 1)) 3 = 3 ∧
    (registerN (Server.start 800) (fun k => 10 * (k + 1)) 3).conns = [10, 20, 30] :=
  have h := C9_identities_sequential 800 (fun k => 10 * (k + 1)) 3 (by decide) (by decide)
  ⟨h.1, h.2.2.1⟩

/-- C9 fails at the 2147483648-th registration: `clientCounter++` wraps the `int32` counter
from 2147483647 to -2147483648, and the identity returned is neither 2147483648 nor
positive. -/
theorem C9_identity_wraps :
    nthClientID (Server.start 800) (fun k => k) 2147483648 = -2147483648 ∧
    nthClientID (Server.start 800) (fun k => k) 2147483648 ≠ (2147483648 : Nat) ∧
    ¬ 0 < nthClientID (Server.start 800) (fun k => k) 2147483648 := by
  have h : nthClientID (Server.start 800) (fun k => k) 2147483648 = -2147483648 := by
    rw [nthClientID_eq 800 (fun k => k) 2147483648 (by omega)]
    unfold wrapInt32
    omega
  rw [h]
  refine ⟨rfl, ?_, ?_⟩ <;> omega

/-! ## Primes -/

theorem wrapInt32_sq (i : Int) (h₁ : 2 ≤ i) (h₂ : i ≤ 46340) :
    -2147483648 ≤ i * i ∧ i * i ≤ 2147483647 ∧ wrapInt32 (i * i) = i * i := by
  have h₃ : i * i ≤ 46340 * 46340 := by nlinarith
  have h₄ : 0 ≤ i * i := by nlinarith
  exact ⟨by omega, by omega, wrapInt32_of_mem _ (by omega) (by omega)⟩

theorem no_divisor_of_sq_gt (n i : Int) (hn : 2 ≤ n) (hi : 2 ≤ i) (hsq : n < i * i)
    (h : ∀ d : Int, 2 ≤ d → d < i → ¬ d ∣ n) :
    ∀ d : Int, 1 < d → d < n → ¬ d ∣ n := by
  intro d hd₁ hdn hdvd
  obtain ⟨e, he⟩ := hdvd
  have hepos : 0 < e := by
    by_contra hneg
    have : d * e ≤ 0 := by nlinarith
    omega
  have he₂ : 2 ≤ e := by
    by_contra hlt
    have he₁ : e = 1 := by omega
    rw [he₁, mul_one] at he
    omega
  have hdi : i ≤ d := by
    by_contra hlt
    exact h d (by omega) (by omega) ⟨e, he⟩
  have hei : i ≤ e := by
    by_contra hlt
    exact h e he₂ (by omega) ⟨d, by rw [he]; ring⟩
  have : i * i ≤ d * e := by nlinarith
  omega

theorem IsPrimeLoop_correct (n : Int) (hn : 2 ≤ n) (hhi : n ≤ 2147483647) :
    ∀ (fuel : Nat) (i : Int), 2 ≤ i → i ≤ 46341 → 46342 ≤ (fuel : Int) + i →
      (∀ d : Int, 2 ≤ d → d < i → ¬ d ∣ n) →
      ∃ b, IsPrimeLoop n fuel i = some b ∧
        (b = true ↔ ∀ d : Int, 1 < d → d < n → ¬ d ∣ n) := by
  intro fuel
  induction fuel with
  | zero =>
    intro i _ hi₂ hf _
    simp only [Nat.cast_zero] at hf
    omega
  | succ f ih =>
    intro i hi₁ hi₂ hf hinv
    by_cases hle : i ≤ 46340
    · obtain ⟨_, _, hsq⟩ := wrapInt32_sq i hi₁ hle
      by_cases hcond : i * i ≤ n
      · by_cases hmod : Int.tmod n i = 0
        · refine ⟨false, by simp [IsPrimeLoop, hle, hsq, hcond, hmod], ?_⟩
          simp only [Bool.false_eq_true, false_iff, not_forall]
          have hin : i < n := by nlinarith
          exact ⟨i, by omega, hin, fun hnd => hnd (Int.dvd_of_tmod_eq_zero hmod)⟩
        · have hnext : wrapInt32 (i + 1) = i + 1 := wrapInt32_of_mem _ (by omega) (by omega)
          have hstep : IsPrimeLoop n (f + 1) i = IsPrimeLoop n f (i + 1) := by
            simp [IsPrimeLoop, hle, hsq, hcond, hmod, hnext]
          rw [hstep]
          refine ih (i + 1) (by omega) (by omega) (by push_cast at hf; omega) ?_
          intro d hd₁ hd₂ hdvd
          by_cases hdi : d = i
          · subst hdi
            exact hmod (Int.tmod_eq_zero_of_dvd hdvd)
          · exact hinv d hd₁ (by omega) hdvd
      · refine ⟨true, by simp [IsPrimeLoop, hle, hsq, hcond], ?_⟩
        simp only [true_iff]
        exact no_divisor_of_sq_gt n i hn hi₁ (by omega) hinv
    · refine ⟨true, by simp [IsPrimeLoop, hle], ?_⟩
      simp only [true_iff]
      have hi : i = 46341 := by omega
      subst hi
      exact no_divisor_of_sq_gt n 46341 hn (by omega) (by omega) hinv

/-- C11: for every `int32` value `n`, `IsPrime(n)` returns, and it returns true exactly
when `n >= 2` and no integer `d` with `1 < d < n` divides `n`; for every value `i` of the
loop variable that passes `i <= 46340` the product `i*i` and the increment `i + 1` lie
within `int32`, so no wrap-around enters the result. -/
theorem C11_IsPrime_correct (n : Int) (hlo : -2147483648 ≤ n) (hhi : n ≤ 2147483647) :
    (∃ b, IsPrime n = some b ∧
      (b = true ↔ (2 ≤ n ∧ ∀ d : Int, 1 < d → d < n → ¬ d ∣ n))) ∧
    (∀ i : Int, 2 ≤ i → i ≤ 46340 →
      (-2147483648 ≤ i * i ∧ i * i ≤ 2147483647 ∧ wrapInt32 (i * i) = i * i) ∧
      wrapInt32 (i + 1) = i + 1) := by
  refine ⟨?_, fun i h₁ h₂ => ⟨wrapInt32_sq i h₁ h₂, wrapInt32_of_mem _ (by omega) (by omega)⟩⟩
  by_cases h2 : n < 2
  · refine ⟨false, by simp [IsPrime, h2], ?_⟩
    simp only [Bool.false_eq_true, false_iff, not_and]
    intro h
    omega
  · have hn : 2 ≤ n := by omega
    obtain ⟨b, hb, hiff⟩ := IsPrimeLoop_correct n hn hhi 46340 2 (by omega) (by omega)
      (by norm_num) (fun d hd₁ hd₂ => by omega)
    refine ⟨b, by simp [IsPrime, h2, hb], ?_⟩
    rw [hiff]
    exact ⟨fun h => ⟨hn, h⟩, fun h => h.2⟩

/-- The values of the unit tests: 97 is found prime, hence has no divisor strictly between
1 and itself, and `IsPrime(2147483647)` returns with the right answer. -/
theorem C11_IsPrime_correct_witness :
    IsPrime 97 = some true ∧
    (2 ≤ (97 : Int) ∧ ∀ d : Int, 1 < d → d < 97 → ¬ d ∣ 97) ∧
    (∃ b, IsPrime 2147483647 = some b ∧
      (b = true ↔ (2 ≤ (2147483647 : Int) ∧
        ∀ d : Int, 1 < d → d < 2147483647 → ¬ d ∣ 2147483647))) := by
  have e : IsPrime 97 = some true := by decide
  refine ⟨e, ?_, (C11_IsPrime_correct 2147483647 (by decide) (by decide)).1⟩
  obtain ⟨b, hb, hiff⟩ := (C11_IsPrime_correct 97 (by decide) (by decide)).1
  rw [e] at hb
  cases hb
  exact hiff.1 rfl

theorem candidate_range (lib : RandLib) (max : Int) (hlo : 2 ≤ max) (hhi : max ≤ 2147483647)
    (rng : lib.State) :
    wrapInt32 (max - 1) = max - 1 ∧
    2 ≤ (lib.Int31n rng (max - 1)).1 + 2 ∧ (lib.Int31n rng (max - 1)).1 + 2 ≤ max ∧
    wrapInt32 ((lib.Int31n rng (max - 1)).1 + 2) = (lib.Int31n rng (max - 1)).1 + 2 := by
  have h := lib.Int31n_range rng (max - 1) (by omega)
  exact ⟨wrapInt32_of_mem _ (by omega) (by omega), by omega, by omega,
    wrapInt32_of_mem _ (by omega) (by omega)⟩

theorem GenerateRandomPrime_step (lib : RandLib) (max : Int) (hlo : 2 ≤ max)
    (hhi : max ≤ 2147483647) (fuel : Nat) (rng : lib.State) :
    GenerateRandomPrime lib max (fuel + 1) rng =
      match IsPrime ((lib.Int31n rng (max - 1)).1 + 2) with
      | some true => some ((lib.Int31n rng (max - 1)).1 + 2)
      | some false => GenerateRandomPrime lib max fuel (lib.Int31n rng (max - 1)).2
      | none => none := by
  obtain ⟨h₁, _, _, h₂⟩ := candidate_range lib max hlo hhi rng
  simp only [GenerateRandomPrime, h₁, h₂]

theorem GenerateRandomPrime_some (lib : RandLib) (max : Int) (hlo : 2 ≤ max)
    (hhi : max ≤ 2147483647) :
    ∀ (fuel : Nat) (rng : lib.State) (n : Int),
      GenerateRandomPrime lib max fuel rng = some n →
      2 ≤ n ∧ n ≤ max ∧ IsPrime n = some true := by
  intro fuel
  induction fuel with
  | zero =>
    intro rng n h
    simp [GenerateRandomPrime] at h
  | succ f ih =>
    intro rng n h
    rw [GenerateRandomPrime_step lib max hlo hhi] at h
    obtain ⟨_, hc₁, hc₂, _⟩ := candidate_range lib max hlo hhi rng
    cases hp : IsPrime ((lib.Int31n rng (max - 1)).1 + 2) with
    | none => simp [hp] at h
    | some b =>
      cases b with
      | true =>
        simp only [hp, Option.some.injEq] at h
        subst h
        exact ⟨hc₁, hc₂, hp⟩
      | false =>
        simp only [hp] at h
        exact ih _ n h

/-- C12: for every `int32` value `max >= 2` and every state of the generator, a value `n`
returned by `GenerateRandomPrime(max, rng)` satisfies `2 <= n <= max` and `IsPrime(n)` is
true; `max-1` and every candidate `rng.Int31n(max-1) + 2` are computed without wrap-around
and the candidate lies in `[2, max]`; and the function does return as soon as a candidate
is prime. -/
theorem C12_GenerateRandomPrime_range (lib : RandLib) (max : Int) (hlo : 2 ≤ max)
    (hhi : max ≤ 2147483647) :
    (∀ (fuel : Nat) (rng : lib.State) (n : Int),
      GenerateRandomPrime lib max fuel rng = some n →
      2 ≤ n ∧ n ≤ max ∧ IsPrime n = some true) ∧
    wrapInt32 (max - 1) = max - 1 ∧
    (∀ rng : lib.State,
      2 ≤ (lib.Int31n rng (max - 1)).1 + 2 ∧ (lib.Int31n rng (max - 1)).1 + 2 ≤ max ∧
      wrapInt32 ((lib.Int31n rng (max - 1)).1 + 2) = (lib.Int31n rng (max - 1)).1 + 2) ∧
    (∀ (fuel : Nat) (rng : lib.State),
      IsPrime ((lib.Int31n rng (max - 1)).1 + 2) = some true →
      GenerateRandomPrime lib max (fuel + 1) rng = some ((lib.Int31n rng (max - 1)).1 + 2)) := by
  refine ⟨GenerateRandomPrime_some lib max hlo hhi, wrapInt32_of_mem _ (by omega) (by omega),
    fun rng => (candidate_range lib max hlo hhi rng).2, fun fuel rng hp => ?_⟩
  rw [GenerateRandomPrime_step lib max hlo hhi, hp]

/-- The setting of the unit test, `max = 100`: the generator first yields the candidate 4,
which is turned down, then 7, which is returned. -/
theorem C12_GenerateRandomPrime_range_witness :
    GenerateRandomPrime streamRand 100 5 [2, 5] = some 7 ∧
    (2 ≤ (7 : Int) ∧ (7 : Int) ≤ 100 ∧ IsPrime 7 = some true) :=
  ⟨by decide,
   (C12_GenerateRandomPrime_range streamRand 100 (by decide) (by decide)).1 5 [2, 5] 7
     (by decide)⟩

/-! ## A connection whose key does not parse -/

theorem handleClient_parse_failure (lib : CryptoLib) (codec : KeyCodecLib) (s : Server)
    (maxNumbers clientID : Int) (conn : Nat) (pubBytes : List Nat) (idWriteOk : Bool)
    (frames : List (Frame × Bool)) (h : ParsePublicKey codec pubBytes = none) :
    handleClient lib codec s maxNumbers clientID conn (some pubBytes) idWriteOk frames = s := by
  simp [handleClient, h]

/-- C13 (as the code has it): when the first bytes of an accepted connection do not parse
as a public key, `handleClient` returns leaving the server as it found it: no key binding
is stored, nothing is handed to `binary.Write`, the pool is untouched.  The identity has
been assigned before the session starts, by the call of `registerClient` in `main`: the
counter has advanced and the connection is in `conns`. -/
theorem C13_parse_failure_after_registration (lib : CryptoLib) (codec : KeyCodecLib)
    (s : Server) (maxNumbers : Int) (conn : Nat) (pubBytes : List Nat) (idWriteOk : Bool)
    (frames : List (Frame × Bool)) (h : ParsePublicKey codec pubBytes = none) :
    (∀ (t : Server) (clientID : Int),
      handleClient lib codec t maxNumbers clientID conn (some pubBytes) idWriteOk frames = t) ∧
    (acceptConn lib codec s maxNumbers conn (some pubBytes) idWriteOk frames).2.publicKeys
      = s.publicKeys ∧
    (acceptConn lib codec s maxNumbers conn (some pubBytes) idWriteOk frames).2.sent = s.sent ∧
    (acceptConn lib codec s maxNumbers conn (some pubBytes) idWriteOk frames).2.pool = s.pool ∧
    (acceptConn lib codec s maxNumbers conn (some pubBytes) idWriteOk frames).1
      = wrapInt32 (s.clientCounter + 1) ∧
    (acceptConn lib codec s maxNumbers conn (some pubBytes) idWriteOk frames).2.clientCounter
      = wrapInt32 (s.clientCounter + 1) ∧
    (acceptConn lib codec s maxNumbers conn (some pubBytes) idWriteOk frames).2.conns
      = s.conns ++ [conn] := by
  have hs : (acceptConn lib codec s maxNumbers conn (some pubBytes) idWriteOk frames).2
      = (registerClient s conn).2 := by
    simp only [acceptConn]
    exact handleClient_parse_failure lib codec _ maxNumbers _ conn pubBytes idWriteOk frames h
  refine ⟨fun t clientID =>
    handleClient_parse_failure lib codec t maxNumbers clientID conn pubBytes idWriteOk frames h,
    ?_, ?_, ?_, rfl, ?_, ?_⟩ <;> rw [hs] <;> rfl

/-- The bytes of the unit test, `invalid`, sent as the key on the first connection of a
server started with the default `max` of 800. -/
theorem C13_parse_failure_after_registration_witness :
    ParsePublicKey standInCodec [105, 110, 118, 97, 108, 105, 100] = none ∧
    (acceptConn standInLib standInCodec (Server.start 800) 800 10
      (some [105, 110, 118, 97, 108, 105, 100]) true []).2.publicKeys = GoMap.empty ∧
    (acceptConn standInLib standInCodec (Server.start 800) 800 10
      (some [105, 110, 118, 97, 108, 105, 100]) true []).2.sent = [] :=
  have h := C13_parse_failure_after_registration standInLib standInCodec (Server.start 800) 800
    10 [105, 110, 118, 97, 108, 105, 100] true [] (by decide)
  ⟨by decide, h.2.1, h.2.2.1⟩

/-- C13 fails on the identity: the first connection of a server sends bytes that do not
parse; the counter has gone from 0 to 1, the connection is tracked, and the next connection
is given the identity 2. -/
theorem C13_identity_consumed :
    ParsePublicKey standInCodec [105, 110, 118, 97, 108, 105, 100] = none ∧
    (Server.start 800).clientCounter = 0 ∧
    (Server.start 800).conns = [] ∧
    (acceptConn standInLib standInCodec (Server.start 800) 800 10
      (some [105, 110, 118, 97, 108, 105, 100]) true []).1 = 1 ∧
    (acceptConn standInLib standInCodec (Server.start 800) 800 10
      (some [105, 110, 118, 97, 108, 105, 100]) true []).2.clientCounter = 1 ∧
    (acceptConn standInLib standInCodec (Server.start 800) 800 10
      (some [105, 110, 118, 97, 108, 105, 100]) true []).2.conns = [10] ∧
    (registerClient (acceptConn standInLib standInCodec (Server.start 800) 800 10
      (some [105, 110, 118, 97, 108, 105, 100]) true []).2 20).1 = 2 := by
  decide

end GoParallelSign
